import Mathlib

/-!
Verification of the dual-encoder sequence labeller and its corpus selector.

The Python sources are shallowly embedded: Python strings are Lean `String`s,
Python `str.split`/`str.upper`/`str.startswith` are embedded as explicit
recursions over the character list (`String.data`), dictionaries of tags are
ordered duplicate-free lists of strings (flair's `Dictionary.add_item` only
appends an item that is not yet present), tensors are abstracted to their
shapes, and fallible construction returns `Option`.
-/

/- ### Python string primitives -/

/-- Embedding of Python `str.split(sep)` on the character list: splits at every
occurrence of `sep`, keeping empty pieces (`"a--b".split("-") == ["a","","b"]`). -/
def splitChar (sep : Char) : List Char → List (List Char)
  | [] => [[]]
  | c :: cs =>
    if c = sep then [] :: splitChar sep cs
    else
      match splitChar sep cs with
      | [] => [[c]]
      | w :: ws => (c :: w) :: ws

/-- Embedding of Python `sep.join(words)` on character lists. -/
def joinChar (sep : Char) : List (List Char) → List Char
  | [] => []
  | [w] => w
  | w :: ws => w ++ sep :: joinChar sep ws

/-- Embedding of Python `s.split(sep)` producing strings. -/
def pySplit (s : String) (sep : Char) : List String :=
  (splitChar sep s.data).map String.mk

/-- Embedding of Python `s.startswith(p)`. -/
def pyStartsWith (s p : String) : Bool :=
  p.data.isPrefixOf s.data

/-- Embedding of Python `s.upper()` (ASCII case mapping suffices here). -/
def pyUpper (s : String) : String :=
  ⟨s.data.map Char.toUpper⟩

/- ### Tag dictionary construction (`_init_verbalizers_and_tag_dictionary`) -/

/-- Embedding of flair's `Dictionary.add_item`: append the item unless it is
already present (the dictionary is an ordered duplicate-free list). -/
def addItem (d : List String) (item : String) : List String :=
  if item ∈ d then d else d ++ [item]

/-- The `if self.tag_format == "BIOES"` block of the expansion loop
(dual_encoder.py lines 57-61). -/
def addBioesVariants (tagFormat : String) (d : List String) (label : String) : List String :=
  if tagFormat = "BIOES" then
    addItem (addItem (addItem (addItem d ("S-" ++ label)) ("B-" ++ label)) ("E-" ++ label)) ("I-" ++ label)
  else d

/-- The `if self.tag_format == "BIO"` block of the expansion loop
(dual_encoder.py lines 62-64). -/
def addBioVariants (tagFormat : String) (d : List String) (label : String) : List String :=
  if tagFormat = "BIO" then
    addItem (addItem d ("B-" ++ label)) ("I-" ++ label)
  else d

/-- One iteration of the label-expansion loop of
`_init_verbalizers_and_tag_dictionary` (dual_encoder.py lines 53-64): skip
`"<unk>"`, always add `"O"`, then run the two format `if` blocks in turn. -/
def expandStep (tagFormat : String) (d : List String) (label : String) : List String :=
  if label = "<unk>" then d
  else addBioVariants tagFormat (addBioesVariants tagFormat (addItem d "O") label) label

/-- The expanded label dictionary built from the span-level tag dictionary's
items (dual_encoder.py lines 51-64), starting from an empty dictionary. -/
def expandDict (tagFormat : String) (items : List String) : List String :=
  items.foldl (expandStep tagFormat) []

/-- The prefixed variants one non-`"<unk>"` label contributes to the expanded
dictionary (the per-label `add_item` calls of the loop, `"O"` aside). -/
def tagVariants (tagFormat : String) (l : String) : List String :=
  if tagFormat = "BIOES" then ["S-" ++ l, "B-" ++ l, "E-" ++ l, "I-" ++ l]
  else if tagFormat = "BIO" then ["B-" ++ l, "I-" ++ l]
  else []

/-- Embedding of `DualEncoder.__init__` + `_init_verbalizers_and_tag_dictionary`
restricted to the label dictionary it builds: the format is upper-cased in
`__init__`; for a span-level tag dictionary the assert rejects formats other
than BIOES/BIO (`none`) and otherwise the expanded dictionary is built; a flat
tag dictionary is taken over unchanged with no format check. -/
def init_verbalizers_and_tag_dictionary (spanLabels : Bool) (items : List String)
    (tagFormat : String) : Option (List String) :=
  if spanLabels then
    if pyUpper tagFormat ∈ ["BIOES", "BIO"] then
      some (expandDict (pyUpper tagFormat) items)
    else none
  else some items

/-- Embedding of Python `label.split("-")[1]` as used by the verbalizer (defined
whenever the label contains a `-`; out of range yields `""` where Python would
raise, which the verbalizer never hits since it only splits prefixed labels). -/
def labelText (label : String) : String :=
  (pySplit label '-').getD 1 ""

/-- The verbalization of one dictionary item (dual_encoder.py lines 72-79):
`"O"` becomes `"other"`, `"B-x"` becomes `"begin x"`, `"I-x"` becomes
`"inside x"`, and any other item gets no verbalization at all. -/
def verbalize (label : String) : Option String :=
  if label = "O" then some "other"
  else if pyStartsWith label "B-" then some ("begin " ++ labelText label)
  else if pyStartsWith label "I-" then some ("inside " ++ labelText label)
  else none

/-- The list of verbalized labels actually embedded by `forward`
(`idx2verbalized_label.values()`): only items the verbalizer covers. -/
def verbalizedLabels (dict : List String) : List String :=
  dict.filterMap verbalize

/-- Modelled from the spec: the code defines no inverse of the verbalizer; the
spec's round-trip re-derivation of the base label from a generated phrase drops
the leading word (the verbalized BIO marker) and keeps the rest of the phrase. -/
def deriveBase (phrase : String) : String :=
  ⟨joinChar ' ' ((splitChar ' ' phrase.data).drop 1)⟩

/- ### The logits matrix of `forward` -/

/-- Number of tokens in a batch (`all_tokens_in_batch`, dual_encoder.py line 93). -/
def totalTokens (sentences : List (List α)) : ℕ :=
  (sentences.map List.length).sum

/-- Shape of `logits = torch.mm(token_embedding_tensor, torch.stack(label_tensor).T)`
(dual_encoder.py line 104): rows = tokens in the batch, columns = number of
verbalized labels stacked into `label_tensor`. -/
def logitsShape (sentences : List (List α)) (dict : List String) : ℕ × ℕ :=
  (totalTokens sentences, (verbalizedLabels dict).length)

/- ### Gold label encoding (`_get_gold_labels`) -/

/-- A gold span: 1-based index of its first and last token (flair's `Token.idx`)
and its label value. -/
structure GSpan where
  first : ℕ
  last : ℕ
  value : String
deriving DecidableEq, Repr

/-- Embedding of Python `for i in range(a, b): labels[i] = v`. -/
def setRange (l : List String) (a b : ℕ) (v : String) : List String :=
  (List.range' a (b - a)).foldl (fun acc i => acc.set i v) l

/-- Encoding of one gold span over the running token-label list
(dual_encoder.py lines 259-270): under BIOES a length-1 span writes `S-`,
a longer span writes `B-` at the first token, `E-` at the last and `I-` on
`range(first, last-1)`; under BIO it writes `B-` at the first token and `I-`
on `range(first, last)` (all token indices 1-based, list positions 0-based). -/
def encodeSpan (tagFormat : String) (labels : List String) (sp : GSpan) : List String :=
  if tagFormat = "BIOES" then
    if sp.first = sp.last then
      labels.set (sp.first - 1) ("S-" ++ sp.value)
    else
      setRange ((labels.set (sp.first - 1) ("B-" ++ sp.value)).set (sp.last - 1) ("E-" ++ sp.value))
        sp.first (sp.last - 1) ("I-" ++ sp.value)
  else
    setRange (labels.set (sp.first - 1) ("B-" ++ sp.value)) sp.first sp.last ("I-" ++ sp.value)

/-- Embedding of `_get_gold_labels` for one sentence in the span-prediction
case: start from `["O"] * len(sentence)` and encode each gold span. -/
def get_gold_labels (tagFormat : String) (n : ℕ) (spans : List GSpan) : List String :=
  spans.foldl (encodeSpan tagFormat) (List.replicate n "O")

/-- The tag the claim assigns to position `p` (0-based) of a span under BIOES. -/
def bioesTag (sp : GSpan) (p : ℕ) : String :=
  if sp.first = sp.last then "S-" ++ sp.value
  else if p = sp.first - 1 then "B-" ++ sp.value
  else if p = sp.last - 1 then "E-" ++ sp.value
  else "I-" ++ sp.value

/-- The tag the claim assigns to position `p` (0-based) of a span under BIO. -/
def bioTag (sp : GSpan) (p : ℕ) : String :=
  if p = sp.first - 1 then "B-" ++ sp.value else "I-" ++ sp.value

/-- The claim's tag for a span position under the model's format. -/
def spanTag (tagFormat : String) (sp : GSpan) (p : ℕ) : String :=
  if tagFormat = "BIOES" then bioesTag sp p else bioTag sp p

/-- Position `p` (0-based) lies inside the span (whose token indices are 1-based). -/
def inSpan (sp : GSpan) (p : ℕ) : Prop :=
  sp.first - 1 ≤ p ∧ p ≤ sp.last - 1

instance (sp : GSpan) (p : ℕ) : Decidable (inSpan sp p) := by
  unfold inSpan; infer_instance

/-- Well-formed span of a sentence with `n` tokens: 1-based, non-empty, in bounds. -/
def spanWF (n : ℕ) (sp : GSpan) : Prop :=
  1 ≤ sp.first ∧ sp.first ≤ sp.last ∧ sp.last ≤ n

instance (n : ℕ) (sp : GSpan) : Decidable (spanWF n sp) := by
  unfold spanWF; infer_instance

/-- Two spans occupy disjoint token ranges. -/
def spansDisjoint (a b : GSpan) : Prop :=
  a.last < b.first ∨ b.last < a.first

instance (a b : GSpan) : Decidable (spansDisjoint a b) := by
  unfold spansDisjoint; infer_instance

/- ### `forward_loss` and token-level prediction attachment -/

/-- Embedding of `forward_loss` (dual_encoder.py lines 153-159): an empty batch
short-circuits to loss `0.0` and count `0`; otherwise the loss is whatever
`forward` computes (abstracted as a parameter) and the count is the total
number of tokens. -/
def forward_loss (forward : List (List α) → ℚ) (sentences : List (List α)) : ℚ × ℕ :=
  if sentences.length = 0 then (0, 0)
  else (forward sentences, (sentences.map List.length).sum)

/-- Embedding of the token-level branch of `predict` (dual_encoder.py lines
236-240): walk `zip(sentence.tokens, sentence_predictions)` and attach the
predicted (value, score) to the token unless the value is `"O"` or `"_"`. -/
def addTokenPredictions (tokens : List α) (preds : List (String × ℚ)) :
    List (α × String × ℚ) :=
  (tokens.zip preds).filterMap fun tl =>
    if tl.2.1 ∈ ["O", "_"] then none else some (tl.1, tl.2.1, tl.2.2)

/- ### Corpus selector (`local_corpora.get_corpus`) -/

/-- The corpora `get_corpus` can build (the label-renaming tables they are
constructed with are static configuration attached to each constructor site). -/
inductive Corpus where
  | wnut17
  | conll03
  | ontonotes
  | fewnerdFine
  | fewnerdCoarse
deriving DecidableEq, Repr

/-- Embedding of `get_corpus` (local_corpora.py lines 6-197): the `if/elif`
chain over the corpus name; for `"fewnerd"` an inner chain over the granularity
falls off the end of the function (Python's implicit `None`) when the
granularity is neither `"fine"` nor `"coarse"`; any other corpus name raises
`Exception("no valid corpus.")`. -/
def get_corpus (corpus : String) (fewnerdGranularity : String) :
    Except String (Option Corpus) :=
  if corpus = "wnut_17" then .ok (some .wnut17)
  else if corpus = "conll_03" then .ok (some .conll03)
  else if corpus = "ontonotes" then .ok (some .ontonotes)
  else if corpus = "fewnerd" then
    if fewnerdGranularity = "fine" then .ok (some .fewnerdFine)
    else if fewnerdGranularity = "coarse" then .ok (some .fewnerdCoarse)
    else .ok none
  else .error "no valid corpus."

/- ### Theorems -/

/- Helper lemmas about `addItem` / `expandStep` membership. -/

theorem mem_addItem_self (d : List String) (x : String) : x ∈ addItem d x := by
  unfold addItem; split
  · assumption
  · simp

theorem mem_addItem_of_mem (d : List String) (x y : String) (h : y ∈ d) :
    y ∈ addItem d x := by
  unfold addItem; split
  · exact h
  · simp [h]

theorem mem_addBioesVariants_of_mem (tagFormat : String) (d : List String) (l y : String)
    (h : y ∈ d) : y ∈ addBioesVariants tagFormat d l := by
  unfold addBioesVariants
  split <;>
    (repeat first
      | exact h
      | apply mem_addItem_of_mem)

theorem mem_addBioVariants_of_mem (tagFormat : String) (d : List String) (l y : String)
    (h : y ∈ d) : y ∈ addBioVariants tagFormat d l := by
  unfold addBioVariants
  split <;>
    (repeat first
      | exact h
      | apply mem_addItem_of_mem)

theorem mem_expandStep_of_mem (tagFormat : String) (d : List String) (l y : String)
    (h : y ∈ d) : y ∈ expandStep tagFormat d l := by
  unfold expandStep
  split
  · exact h
  · exact mem_addBioVariants_of_mem _ _ _ _
      (mem_addBioesVariants_of_mem _ _ _ _ (mem_addItem_of_mem _ _ _ h))

theorem mem_foldl_expandStep_of_mem (tagFormat : String) (labels : List String)
    (d : List String) (y : String) (h : y ∈ d) :
    y ∈ labels.foldl (expandStep tagFormat) d := by
  induction labels generalizing d with
  | nil => exact h
  | cons l ls ih =>
    exact ih (expandStep tagFormat d l) (mem_expandStep_of_mem tagFormat d l y h)

theorem O_mem_expandStep (tagFormat : String) (d : List String) (l : String)
    (hl : l ≠ "<unk>") : "O" ∈ expandStep tagFormat d l := by
  unfold expandStep
  rw [if_neg hl]
  exact mem_addBioVariants_of_mem _ _ _ _
    (mem_addBioesVariants_of_mem _ _ _ _ (mem_addItem_self d "O"))

theorem O_mem_foldl_expandStep (tagFormat : String) (labels : List String)
    (d : List String) (h : ∃ l ∈ labels, l ≠ "<unk>") :
    "O" ∈ labels.foldl (expandStep tagFormat) d := by
  induction labels generalizing d with
  | nil => simp at h
  | cons l ls ih =>
    obtain ⟨l', hl', hne⟩ := h
    rcases List.mem_cons.mp hl' with rfl | hmem
    · exact mem_foldl_expandStep_of_mem tagFormat ls _ "O"
        (O_mem_expandStep tagFormat d l' hne)
    · exact ih (expandStep tagFormat d l) ⟨l', hmem, hne⟩

/- Helper lemmas about the strings produced by the label expansion. -/

theorem string_eq_of_data_eq (a b : String) (h : a.data = b.data) : a = b := by
  cases a; cases b; exact congrArg String.mk h

theorem string_append_left_cancel (p a b : String) (h : p ++ a = p ++ b) : a = b := by
  have hd := congrArg String.data h
  simp only [String.data_append] at hd
  exact string_eq_of_data_eq a b (List.append_cancel_left hd)

theorem S_append_ne_O (a : String) : "S-" ++ a ≠ "O" := by
  intro h
  have hd := congrArg String.data h
  simp [String.data_append] at hd

theorem B_append_ne_O (a : String) : "B-" ++ a ≠ "O" := by
  intro h
  have hd := congrArg String.data h
  simp [String.data_append] at hd

theorem E_append_ne_O (a : String) : "E-" ++ a ≠ "O" := by
  intro h
  have hd := congrArg String.data h
  simp [String.data_append] at hd

theorem I_append_ne_O (a : String) : "I-" ++ a ≠ "O" := by
  intro h
  have hd := congrArg String.data h
  simp [String.data_append] at hd

theorem S_append_ne_B (a b : String) : "S-" ++ a ≠ "B-" ++ b := by
  intro h
  have hd := congrArg String.data h
  simp [String.data_append] at hd

theorem S_append_ne_E (a b : String) : "S-" ++ a ≠ "E-" ++ b := by
  intro h
  have hd := congrArg String.data h
  simp [String.data_append] at hd

theorem S_append_ne_I (a b : String) : "S-" ++ a ≠ "I-" ++ b := by
  intro h
  have hd := congrArg String.data h
  simp [String.data_append] at hd

theorem B_append_ne_E (a b : String) : "B-" ++ a ≠ "E-" ++ b := by
  intro h
  have hd := congrArg String.data h
  simp [String.data_append] at hd

theorem B_append_ne_I (a b : String) : "B-" ++ a ≠ "I-" ++ b := by
  intro h
  have hd := congrArg String.data h
  simp [String.data_append] at hd

theorem E_append_ne_I (a b : String) : "E-" ++ a ≠ "I-" ++ b := by
  intro h
  have hd := congrArg String.data h
  simp [String.data_append] at hd

/- Helper lemmas about `addItem` as an ordered duplicate-free insert. -/

theorem addItem_of_not_mem (d : List String) (x : String) (h : x ∉ d) :
    addItem d x = d ++ [x] := by
  unfold addItem
  rw [if_neg h]

theorem mem_addItem_iff (d : List String) (x y : String) :
    y ∈ addItem d x ↔ y ∈ d ∨ y = x := by
  unfold addItem
  split
  · rename_i hx
    constructor
    · exact Or.inl
    · rintro (h | rfl)
      · exact h
      · exact hx
  · simp

theorem addItem_length (d : List String) (x : String) :
    (addItem d x).length = if x ∈ d then d.length else d.length + 1 := by
  unfold addItem
  split <;> simp_all

/- Facts about the per-label variant lists. -/

theorem O_not_mem_tagVariants (tagFormat l : String) : "O" ∉ tagVariants tagFormat l := by
  unfold tagVariants
  split
  · intro h
    simp only [List.mem_cons, List.not_mem_nil, or_false] at h
    rcases h with h | h | h | h
    exacts [S_append_ne_O l h.symm, B_append_ne_O l h.symm, E_append_ne_O l h.symm,
      I_append_ne_O l h.symm]
  · split
    · intro h
      simp only [List.mem_cons, List.not_mem_nil, or_false] at h
      rcases h with h | h
      exacts [B_append_ne_O l h.symm, I_append_ne_O l h.symm]
    · simp

theorem tagVariants_disjoint (tagFormat l l' : String) (hne : l ≠ l') :
    ∀ v ∈ tagVariants tagFormat l, v ∉ tagVariants tagFormat l' := by
  unfold tagVariants
  split
  · intro v hv hv'
    simp only [List.mem_cons, List.not_mem_nil, or_false] at hv hv'
    rcases hv with rfl | rfl | rfl | rfl <;>
      rcases hv' with h | h | h | h <;>
      first
        | exact hne (string_append_left_cancel _ _ _ h)
        | exact S_append_ne_B _ _ h
        | exact S_append_ne_B _ _ h.symm
        | exact S_append_ne_E _ _ h
        | exact S_append_ne_E _ _ h.symm
        | exact S_append_ne_I _ _ h
        | exact S_append_ne_I _ _ h.symm
        | exact B_append_ne_E _ _ h
        | exact B_append_ne_E _ _ h.symm
        | exact B_append_ne_I _ _ h
        | exact B_append_ne_I _ _ h.symm
        | exact E_append_ne_I _ _ h
        | exact E_append_ne_I _ _ h.symm
  · split
    · intro v hv hv'
      simp only [List.mem_cons, List.not_mem_nil, or_false] at hv hv'
      rcases hv with rfl | rfl <;>
        rcases hv' with h | h <;>
        first
          | exact hne (string_append_left_cancel _ _ _ h)
          | exact B_append_ne_I _ _ h
          | exact B_append_ne_I _ _ h.symm
    · simp

/-- With a valid format and all the label's variants fresh, one loop iteration
appends exactly `"O"` (if missing) and the label's prefixed variants. -/
theorem expandStep_eq_append (tagFormat : String)
    (hfmt : tagFormat = "BIOES" ∨ tagFormat = "BIO") (d : List String) (l : String)
    (hunk : l ≠ "<unk>") (hfresh : ∀ v ∈ tagVariants tagFormat l, v ∉ d) :
    expandStep tagFormat d l = addItem d "O" ++ tagVariants tagFormat l := by
  have hOmem : ∀ v ∈ tagVariants tagFormat l, v ∉ addItem d "O" := by
    intro v hv
    rw [mem_addItem_iff]
    rintro (hvd | rfl)
    · exact hfresh v hv hvd
    · exact O_not_mem_tagVariants tagFormat l hv
  rcases hfmt with rfl | rfl
  · have hS := hOmem ("S-" ++ l) (by simp [tagVariants])
    have hB := hOmem ("B-" ++ l) (by simp [tagVariants])
    have hE := hOmem ("E-" ++ l) (by simp [tagVariants])
    have hI := hOmem ("I-" ++ l) (by simp [tagVariants])
    unfold expandStep
    rw [if_neg hunk]
    have hbio : ∀ D : List String, addBioVariants "BIOES" D l = D := by
      intro D
      simp [addBioVariants]
    rw [hbio]
    have hbioes : addBioesVariants "BIOES" (addItem d "O") l
        = addItem (addItem (addItem (addItem (addItem d "O") ("S-" ++ l)) ("B-" ++ l)) ("E-" ++ l)) ("I-" ++ l) := by
      simp [addBioesVariants]
    rw [hbioes]
    rw [addItem_of_not_mem _ _ hS]
    have hB1 : ("B-" ++ l) ∉ addItem d "O" ++ ["S-" ++ l] := by
      simp only [List.mem_append, List.mem_singleton, not_or]
      exact ⟨hB, fun h => S_append_ne_B l l h.symm⟩
    rw [addItem_of_not_mem _ _ hB1]
    have hE1 : ("E-" ++ l) ∉ (addItem d "O" ++ ["S-" ++ l]) ++ ["B-" ++ l] := by
      simp only [List.mem_append, List.mem_singleton, not_or]
      exact ⟨⟨hE, fun h => S_append_ne_E l l h.symm⟩, fun h => B_append_ne_E l l h.symm⟩
    rw [addItem_of_not_mem _ _ hE1]
    have hI1 : ("I-" ++ l) ∉ ((addItem d "O" ++ ["S-" ++ l]) ++ ["B-" ++ l]) ++ ["E-" ++ l] := by
      simp only [List.mem_append, List.mem_singleton, not_or]
      exact ⟨⟨⟨hI, fun h => S_append_ne_I l l h.symm⟩, fun h => B_append_ne_I l l h.symm⟩,
        fun h => E_append_ne_I l l h.symm⟩
    rw [addItem_of_not_mem _ _ hI1]
    simp [tagVariants, List.append_assoc]
  · have hB := hOmem ("B-" ++ l) (by simp [tagVariants])
    have hI := hOmem ("I-" ++ l) (by simp [tagVariants])
    unfold expandStep
    rw [if_neg hunk]
    have hbioes : ∀ D : List String, addBioesVariants "BIO" D l = D := by
      intro D
      simp [addBioesVariants]
    rw [hbioes]
    have hbio : addBioVariants "BIO" (addItem d "O") l
        = addItem (addItem (addItem d "O") ("B-" ++ l)) ("I-" ++ l) := by
      simp [addBioVariants]
    rw [hbio]
    rw [addItem_of_not_mem _ _ hB]
    have hI1 : ("I-" ++ l) ∉ addItem d "O" ++ ["B-" ++ l] := by
      simp only [List.mem_append, List.mem_singleton, not_or]
      exact ⟨hI, fun h => B_append_ne_I l l h.symm⟩
    rw [addItem_of_not_mem _ _ hI1]
    simp [tagVariants, List.append_assoc]

/-- Length of the expansion fold: starting from `d`, it adds one `"O"` when `d`
lacks it and some label other than `"<unk>"` occurs, plus `k` variants per
distinct non-`"<unk>"` label. -/
theorem foldl_expandStep_length (tagFormat : String)
    (hfmt : tagFormat = "BIOES" ∨ tagFormat = "BIO") (k : ℕ)
    (hk : ∀ l : String, (tagVariants tagFormat l).length = k) (labels : List String) :
    ∀ d : List String, labels.Nodup →
      (∀ l ∈ labels, l ≠ "<unk>" → ∀ v ∈ tagVariants tagFormat l, v ∉ d) →
      (labels.foldl (expandStep tagFormat) d).length =
        d.length
          + (if "O" ∈ d ∨ labels.filter (fun l => l != "<unk>") = [] then 0 else 1)
          + k * (labels.filter (fun l => l != "<unk>")).length := by
  induction labels with
  | nil =>
    intro d _ _
    simp
  | cons l ls ih =>
    intro d hnd hfresh
    simp only [List.foldl_cons]
    by_cases hunk : l = "<unk>"
    · subst hunk
      have hstep : expandStep tagFormat d "<unk>" = d := by
        unfold expandStep
        rw [if_pos rfl]
      rw [hstep]
      have hfilter : (("<unk>" :: ls).filter (fun x => x != "<unk>"))
          = ls.filter (fun x => x != "<unk>") := by
        simp
      rw [hfilter]
      exact ih d (List.nodup_cons.mp hnd).2
        (fun l' hl' => hfresh l' (List.mem_cons_of_mem _ hl'))
    · have hstep := expandStep_eq_append tagFormat hfmt d l hunk
        (hfresh l (List.mem_cons_self l ls) hunk)
      rw [hstep]
      have hlnotmem : l ∉ ls := (List.nodup_cons.mp hnd).1
      have hfresh' : ∀ l' ∈ ls, l' ≠ "<unk>" →
          ∀ v ∈ tagVariants tagFormat l', v ∉ addItem d "O" ++ tagVariants tagFormat l := by
        intro l' hl' hunk' v hv
        rw [List.mem_append, mem_addItem_iff]
        rintro ((hvd | rfl) | hvl)
        · exact hfresh l' (List.mem_cons_of_mem _ hl') hunk' v hv hvd
        · exact O_not_mem_tagVariants tagFormat l' hv
        · exact tagVariants_disjoint tagFormat l' l
            (fun h => hlnotmem (h ▸ hl')) v hv hvl
      have ihres := ih (addItem d "O" ++ tagVariants tagFormat l)
        (List.nodup_cons.mp hnd).2 hfresh'
      rw [ihres]
      have hOmem : "O" ∈ addItem d "O" ++ tagVariants tagFormat l :=
        List.mem_append.mpr (Or.inl (mem_addItem_self d "O"))
      rw [if_pos (Or.inl hOmem)]
      have hfilter : ((l :: ls).filter (fun x => x != "<unk>"))
          = l :: ls.filter (fun x => x != "<unk>") := by
        simp [List.filter_cons, bne_iff_ne, hunk]
      rw [hfilter]
      have hlen : (addItem d "O" ++ tagVariants tagFormat l).length
          = (if "O" ∈ d then d.length else d.length + 1) + k := by
        rw [List.length_append, addItem_length, hk]
      rw [hlen, List.length_cons]
      by_cases hO : "O" ∈ d
      · rw [if_pos hO, if_pos (Or.inl hO)]
        ring
      · rw [if_neg hO, if_neg (by
          push_neg
          exact ⟨hO, by simp⟩)]
        ring

/-- Claim C7: calling `forward_loss` on an empty batch returns loss exactly 0
and token count 0 (and, being total, raises no exception), whatever the inner
`forward` computation would do on non-empty batches. -/
theorem forward_loss_empty_batch (forward : List (List α) → ℚ) :
    forward_loss forward ([] : List (List α)) = (0, 0) := by
  simp [forward_loss]

/-- Claim C8: in token-level prediction mode, a (token, value, score) label is
attached if and only if that token/prediction pair occurs in the zipped batch
and the predicted tag is neither `"O"` nor `"_"`. -/
theorem addTokenPredictions_mem_iff (tokens : List α) (preds : List (String × ℚ))
    (t : α) (tag : String) (score : ℚ) :
    (t, tag, score) ∈ addTokenPredictions tokens preds ↔
      ((t, (tag, score)) ∈ tokens.zip preds ∧ tag ∉ (["O", "_"] : List String)) := by
  simp only [addTokenPredictions, List.mem_filterMap]
  constructor
  · rintro ⟨⟨t', tag', score'⟩, hmem, hval⟩
    by_cases h : tag' ∈ (["O", "_"] : List String)
    · simp [h] at hval
    · simp only [h, if_false, Option.some.injEq, Prod.mk.injEq] at hval
      obtain ⟨h1, h2, h3⟩ := hval
      subst h1; subst h2; subst h3
      exact ⟨hmem, h⟩
  · rintro ⟨hmem, h⟩
    exact ⟨(t, (tag, score)), hmem, by simp [h]⟩

/-- Claim C9: every corpus name outside the supported set makes `get_corpus`
raise `Exception("no valid corpus.")`, for every granularity string. -/
theorem get_corpus_unknown_name_raises (corpus fewnerdGranularity : String)
    (h : corpus ∉ (["wnut_17", "conll_03", "ontonotes", "fewnerd"] : List String)) :
    get_corpus corpus fewnerdGranularity = .error "no valid corpus." := by
  simp only [List.mem_cons, List.mem_singleton, not_or] at h
  obtain ⟨h1, h2, h3, h4⟩ := h
  simp [get_corpus, h1, h2, h3, h4]

/-- Witness for C9 at the concrete unsupported name `"foo"`. -/
theorem get_corpus_unknown_name_raises_witness :
    get_corpus "foo" "fine" = .error "no valid corpus." :=
  get_corpus_unknown_name_raises "foo" "fine" (by decide)

/-- Claim C10: with corpus `"fewnerd"` and a granularity other than `"fine"`
and `"coarse"`, `get_corpus` returns Python's implicit `None` and raises
nothing, instead of the generic failure raised for unknown corpus names. -/
theorem get_corpus_fewnerd_bad_granularity_none (fewnerdGranularity : String)
    (hf : fewnerdGranularity ≠ "fine") (hc : fewnerdGranularity ≠ "coarse") :
    get_corpus "fewnerd" fewnerdGranularity = .ok none := by
  simp [get_corpus, hf, hc]

/-- Witness for C10 at the concrete granularity `""` (the script's default). -/
theorem get_corpus_fewnerd_bad_granularity_none_witness :
    get_corpus "fewnerd" "" = .ok none :=
  get_corpus_fewnerd_bad_granularity_none "" (by decide) (by decide)

/-- Counterexample to claim C5 as stated: with a flat (non-span) tag
dictionary, construction with the invalid format `"XYZ"` succeeds — the
format assert sits inside the span-label branch only. -/
theorem invalid_format_flat_accepted :
    init_verbalizers_and_tag_dictionary false ["PER"] "XYZ" = some ["PER"] ∧
      pyUpper "XYZ" ∉ (["BIOES", "BIO"] : List String) := by
  decide

/-- Claim C5 amended: a tag format whose upper-casing is neither `"BIOES"` nor
`"BIO"` is rejected at construction for every span-level tag dictionary, while
a flat tag dictionary is accepted unchanged regardless of the format. -/
theorem invalid_format_rejected_span_only (tagFormat : String) (items : List String)
    (h : pyUpper tagFormat ∉ (["BIOES", "BIO"] : List String)) :
    init_verbalizers_and_tag_dictionary true items tagFormat = none ∧
      init_verbalizers_and_tag_dictionary false items tagFormat = some items := by
  unfold init_verbalizers_and_tag_dictionary
  simp [h]

/-- Witness for the amended C5 at the concrete format `"xyz"`. -/
theorem invalid_format_rejected_span_only_witness :
    init_verbalizers_and_tag_dictionary true ["PER"] "xyz" = none ∧
      init_verbalizers_and_tag_dictionary false ["PER"] "xyz" = some ["PER"] :=
  invalid_format_rejected_span_only "xyz" ["PER"] (by decide)

/-- Counterexample to claim C6 as stated: a flat tag dictionary without `"O"`
is accepted at construction and taken over unchanged, so the model's label
dictionary does not contain `"O"`. -/
theorem flat_dictionary_without_O :
    init_verbalizers_and_tag_dictionary false ["PER"] "BIO" = some ["PER"] ∧
      "O" ∉ (["PER"] : List String) := by
  decide

/-- Claim C6 amended: for every span-level tag dictionary accepted at
construction that has at least one item besides the unknown sentinel, the
expanded label dictionary contains `"O"` (a flat dictionary is taken over
verbatim and need not contain `"O"`; a span-level dictionary with no item
besides `"<unk>"` yields an empty expanded dictionary). -/
theorem expanded_dictionary_contains_O (items : List String) (tagFormat : String)
    (d : List String)
    (hinit : init_verbalizers_and_tag_dictionary true items tagFormat = some d)
    (hne : ∃ l ∈ items, l ≠ "<unk>") : "O" ∈ d := by
  unfold init_verbalizers_and_tag_dictionary at hinit
  rw [if_pos rfl] at hinit
  by_cases hfmt : pyUpper tagFormat ∈ (["BIOES", "BIO"] : List String)
  · rw [if_pos hfmt] at hinit
    obtain rfl : expandDict (pyUpper tagFormat) items = d := Option.some.inj hinit
    exact O_mem_foldl_expandStep (pyUpper tagFormat) items [] hne
  · rw [if_neg hfmt] at hinit
    exact absurd hinit (by simp)

/-- Witness for the amended C6 at the concrete dictionary `["person"]`, BIO. -/
theorem expanded_dictionary_contains_O_witness :
    "O" ∈ (["O", "B-person", "I-person"] : List String) :=
  expanded_dictionary_contains_O ["person"] "BIO" ["O", "B-person", "I-person"]
    (by decide) (by decide)

/-- Counterexample to claim C2 as stated: the verbalizer keeps only the text
between the first and second `-` (`label.split("-")[1]`), so the hyphenated
base label `"creative-work"` (a raw WNUT-17 label) round-trips to
`"creative"`; moreover under BIOES the `S-`/`E-` expanded tags are not
verbalized at all. -/
theorem verbalize_roundtrip_counterexample :
    verbalize "B-creative-work" = some "begin creative" ∧
      deriveBase "begin creative" = "creative" ∧
      ("creative" : String) ≠ "creative-work" ∧
      verbalize "S-person" = none ∧
      verbalize "E-person" = none := by
  decide

/- Helper lemmas about the Python string primitives. -/

theorem splitChar_ne_nil (sep : Char) (cs : List Char) : splitChar sep cs ≠ [] := by
  cases cs with
  | nil => simp [splitChar]
  | cons c cs =>
    simp only [splitChar]
    split
    · simp
    · split
      · simp
      · simp

theorem joinChar_splitChar (sep : Char) (cs : List Char) :
    joinChar sep (splitChar sep cs) = cs := by
  induction cs with
  | nil => rfl
  | cons c cs ih =>
    simp only [splitChar]
    split
    · rename_i h
      subst h
      rw [show joinChar c ([] :: splitChar c cs) = [] ++ c :: joinChar c (splitChar c cs) from ?_]
      · simp [ih]
      · cases hsp : splitChar c cs with
        | nil => exact absurd hsp (splitChar_ne_nil c cs)
        | cons w ws => rfl
    · cases hsp : splitChar sep cs with
      | nil => exact absurd hsp (splitChar_ne_nil sep cs)
      | cons w ws =>
        cases ws with
        | nil =>
          simp only [joinChar]
          rw [hsp] at ih
          simp only [joinChar] at ih
          simp [ih]
        | cons w2 ws2 =>
          simp only [joinChar]
          rw [hsp] at ih
          simp only [joinChar] at ih
          simp [ih]

theorem splitChar_of_not_mem (sep : Char) (cs : List Char) (h : sep ∉ cs) :
    splitChar sep cs = [cs] := by
  induction cs with
  | nil => rfl
  | cons c cs ih =>
    simp only [List.mem_cons, not_or] at h
    simp only [splitChar]
    rw [if_neg (fun hc => h.1 hc.symm)]
    rw [ih h.2]

theorem splitChar_append (sep : Char) (p rest : List Char) (hp : sep ∉ p) :
    splitChar sep (p ++ sep :: rest) = p :: splitChar sep rest := by
  induction p with
  | nil =>
    simp [splitChar]
  | cons c p ih =>
    simp only [List.mem_cons, not_or] at hp
    simp only [List.cons_append, splitChar]
    rw [if_neg (fun hc => hp.1 hc.symm)]
    rw [show p.append (sep :: rest) = p ++ sep :: rest from rfl, ih hp.2]

theorem string_mk_data (s : String) : String.mk s.data = s := rfl

theorem pyStartsWith_append_self (p l : String) : pyStartsWith (p ++ l) p = true := by
  unfold pyStartsWith
  rw [String.data_append]
  exact List.isPrefixOf_iff_prefix.mpr (List.prefix_append p.data l.data)

theorem pyStartsWith_SB (l : String) : pyStartsWith ("S-" ++ l) "B-" = false := by
  show (['B', '-'] : List Char).isPrefixOf ('S' :: '-' :: l.data) = false
  simp [List.isPrefixOf]

theorem pyStartsWith_SI (l : String) : pyStartsWith ("S-" ++ l) "I-" = false := by
  show (['I', '-'] : List Char).isPrefixOf ('S' :: '-' :: l.data) = false
  simp [List.isPrefixOf]

theorem pyStartsWith_EB (l : String) : pyStartsWith ("E-" ++ l) "B-" = false := by
  show (['B', '-'] : List Char).isPrefixOf ('E' :: '-' :: l.data) = false
  simp [List.isPrefixOf]

theorem pyStartsWith_EI (l : String) : pyStartsWith ("E-" ++ l) "I-" = false := by
  show (['I', '-'] : List Char).isPrefixOf ('E' :: '-' :: l.data) = false
  simp [List.isPrefixOf]

theorem pyStartsWith_IB (l : String) : pyStartsWith ("I-" ++ l) "B-" = false := by
  show (['B', '-'] : List Char).isPrefixOf ('I' :: '-' :: l.data) = false
  simp [List.isPrefixOf]

theorem labelText_B (l : String) (h : ('-' : Char) ∉ l.data) :
    labelText ("B-" ++ l) = l := by
  unfold labelText pySplit
  rw [String.data_append]
  have hs : splitChar '-' ("B-".data ++ l.data) = ['B'] :: splitChar '-' l.data := by
    rw [show "B-".data ++ l.data = ['B'] ++ '-' :: l.data from rfl]
    exact splitChar_append '-' ['B'] l.data (by decide)
  rw [hs, splitChar_of_not_mem '-' l.data h]
  simp only [List.map_cons, List.map_nil, List.getD_cons_succ, List.getD_cons_zero]

theorem labelText_I (l : String) (h : ('-' : Char) ∉ l.data) :
    labelText ("I-" ++ l) = l := by
  unfold labelText pySplit
  rw [String.data_append]
  have hs : splitChar '-' ("I-".data ++ l.data) = ['I'] :: splitChar '-' l.data := by
    rw [show "I-".data ++ l.data = ['I'] ++ '-' :: l.data from rfl]
    exact splitChar_append '-' ['I'] l.data (by decide)
  rw [hs, splitChar_of_not_mem '-' l.data h]
  simp only [List.map_cons, List.map_nil, List.getD_cons_succ, List.getD_cons_zero]

theorem verbalize_B (l : String) (h : ('-' : Char) ∉ l.data) :
    verbalize ("B-" ++ l) = some ("begin " ++ l) := by
  unfold verbalize
  rw [if_neg (B_append_ne_O l), if_pos (pyStartsWith_append_self "B-" l), labelText_B l h]

theorem verbalize_I (l : String) (h : ('-' : Char) ∉ l.data) :
    verbalize ("I-" ++ l) = some ("inside " ++ l) := by
  unfold verbalize
  rw [if_neg (I_append_ne_O l), if_neg (by simp [pyStartsWith_IB l]),
    if_pos (pyStartsWith_append_self "I-" l), labelText_I l h]

theorem verbalize_S_none (l : String) : verbalize ("S-" ++ l) = none := by
  unfold verbalize
  rw [if_neg (S_append_ne_O l), if_neg (by simp [pyStartsWith_SB l]),
    if_neg (by simp [pyStartsWith_SI l])]

theorem verbalize_E_none (l : String) : verbalize ("E-" ++ l) = none := by
  unfold verbalize
  rw [if_neg (E_append_ne_O l), if_neg (by simp [pyStartsWith_EB l]),
    if_neg (by simp [pyStartsWith_EI l])]

theorem deriveBase_append (p : List Char) (l : String) (hp : (' ' : Char) ∉ p) :
    deriveBase (⟨p ++ ' ' :: l.data⟩ : String) = l := by
  unfold deriveBase
  rw [show (String.mk (p ++ ' ' :: l.data)).data = p ++ ' ' :: l.data from rfl]
  rw [splitChar_append ' ' p l.data hp]
  simp only [List.drop_succ_cons, List.drop_zero]
  rw [joinChar_splitChar ' ' l.data]

theorem deriveBase_begin (l : String) : deriveBase ("begin " ++ l) = l := by
  rw [show ("begin " ++ l) = (⟨"begin".data ++ ' ' :: l.data⟩ : String) from rfl]
  exact deriveBase_append "begin".data l (by decide)

theorem deriveBase_inside (l : String) : deriveBase ("inside " ++ l) = l := by
  rw [show ("inside " ++ l) = (⟨"inside".data ++ ' ' :: l.data⟩ : String) from rfl]
  exact deriveBase_append "inside".data l (by decide)

/- Helper lemmas for the gold-label encoding. -/

theorem foldl_set_range'_getElem? (v : String) (k : ℕ) :
    ∀ (a p : ℕ) (l : List String),
      ((List.range' a k).foldl (fun acc i => acc.set i v) l)[p]? =
        if a ≤ p ∧ p < a + k ∧ p < l.length then some v else l[p]? := by
  induction k with
  | zero =>
    intro a p l
    rw [if_neg (by omega)]
    rfl
  | succ k ih =>
    intro a p l
    rw [List.range'_succ]
    simp only [List.foldl_cons]
    rw [ih (a + 1) p (l.set a v), List.length_set, List.getElem?_set]
    split_ifs <;>
      first
        | rfl
        | omega
        | (rw [List.getElem?_eq_none (by omega)])

theorem foldl_set_length (v : String) (k : ℕ) :
    ∀ (a : ℕ) (l : List String),
      ((List.range' a k).foldl (fun acc i => acc.set i v) l).length = l.length := by
  induction k with
  | zero =>
    intro a l
    rfl
  | succ k ih =>
    intro a l
    rw [List.range'_succ]
    simp only [List.foldl_cons]
    rw [ih, List.length_set]

theorem setRange_getElem? (l : List String) (a b p : ℕ) (v : String) :
    (setRange l a b v)[p]? = if a ≤ p ∧ p < b ∧ p < l.length then some v else l[p]? := by
  unfold setRange
  rw [foldl_set_range'_getElem?]
  split_ifs <;> first | rfl | omega

theorem setRange_length (l : List String) (a b : ℕ) (v : String) :
    (setRange l a b v).length = l.length :=
  foldl_set_length v (b - a) a l

theorem encodeSpan_length (tagFormat : String) (l : List String) (sp : GSpan) :
    (encodeSpan tagFormat l sp).length = l.length := by
  unfold encodeSpan
  split_ifs <;> simp [setRange_length]

theorem encodeSpan_bioes_getElem? (l : List String) (sp : GSpan) (p : ℕ)
    (hwf : spanWF l.length sp) :
    (encodeSpan "BIOES" l sp)[p]? =
      if inSpan sp p then some (bioesTag sp p) else l[p]? := by
  obtain ⟨h1, h2, h3⟩ := hwf
  unfold encodeSpan bioesTag inSpan
  rw [if_pos rfl]
  by_cases hfl : sp.first = sp.last
  · rw [if_pos hfl, List.getElem?_set]
    split_ifs <;> first | rfl | omega
  · rw [if_neg hfl, setRange_getElem?]
    simp only [List.length_set]
    rw [List.getElem?_set]
    simp only [List.length_set]
    rw [List.getElem?_set]
    split_ifs <;> first | rfl | omega

theorem encodeSpan_nonbioes_getElem? (tagFormat : String) (hfmt : tagFormat ≠ "BIOES")
    (l : List String) (sp : GSpan) (p : ℕ) (hwf : spanWF l.length sp) :
    (encodeSpan tagFormat l sp)[p]? =
      if inSpan sp p then some (bioTag sp p) else l[p]? := by
  obtain ⟨h1, h2, h3⟩ := hwf
  unfold encodeSpan bioTag inSpan
  rw [if_neg hfmt, setRange_getElem?]
  simp only [List.length_set]
  rw [List.getElem?_set]
  split_ifs <;> first | rfl | omega

theorem encodeSpan_getElem?_char (tagFormat : String) (l : List String) (sp : GSpan)
    (p : ℕ) (hwf : spanWF l.length sp) :
    (encodeSpan tagFormat l sp)[p]? =
      if inSpan sp p then some (spanTag tagFormat sp p) else l[p]? := by
  by_cases hf : tagFormat = "BIOES"
  · subst hf
    rw [encodeSpan_bioes_getElem? l sp p hwf]
    simp [spanTag]
  · rw [encodeSpan_nonbioes_getElem? tagFormat hf l sp p hwf]
    simp [spanTag, hf]

theorem foldl_encodeSpan_out (tagFormat : String) (spans : List GSpan) :
    ∀ l : List String, (∀ sp ∈ spans, spanWF l.length sp) →
      ∀ p : ℕ, (∀ sp ∈ spans, ¬ inSpan sp p) →
        (spans.foldl (encodeSpan tagFormat) l)[p]? = l[p]? := by
  induction spans with
  | nil =>
    intro l _ p _
    rfl
  | cons sp sps ih =>
    intro l hwf p hout
    simp only [List.foldl_cons]
    have hwf' : ∀ s ∈ sps, spanWF (encodeSpan tagFormat l sp).length s := by
      intro s hs
      rw [encodeSpan_length]
      exact hwf s (List.mem_cons_of_mem _ hs)
    rw [ih (encodeSpan tagFormat l sp) hwf' p
      (fun s hs => hout s (List.mem_cons_of_mem _ hs))]
    rw [encodeSpan_getElem?_char tagFormat l sp p (hwf sp (List.mem_cons_self sp sps))]
    rw [if_neg (hout sp (List.mem_cons_self sp sps))]

theorem foldl_encodeSpan_in (tagFormat : String) (spans : List GSpan) :
    ∀ l : List String, (∀ s ∈ spans, spanWF l.length s) →
      spans.Pairwise spansDisjoint →
      ∀ (p : ℕ) (sp : GSpan), sp ∈ spans → inSpan sp p →
        (spans.foldl (encodeSpan tagFormat) l)[p]? = some (spanTag tagFormat sp p) := by
  induction spans with
  | nil =>
    intro l _ _ p sp hs
    exact absurd hs (List.not_mem_nil sp)
  | cons a sps ih =>
    intro l hwf hpw p sp hsp hin
    simp only [List.foldl_cons]
    have hwf' : ∀ s ∈ sps, spanWF (encodeSpan tagFormat l a).length s := by
      intro s hs
      rw [encodeSpan_length]
      exact hwf s (List.mem_cons_of_mem _ hs)
    rcases List.mem_cons.mp hsp with rfl | hmem
    · have hout : ∀ s ∈ sps, ¬ inSpan s p := by
        intro s hs hin'
        have hd := (List.pairwise_cons.mp hpw).1 s hs
        have hw1 := hwf sp (List.mem_cons_self sp sps)
        have hw2 := hwf s (List.mem_cons_of_mem _ hs)
        unfold spansDisjoint at hd
        unfold inSpan at hin hin'
        unfold spanWF at hw1 hw2
        omega
      rw [foldl_encodeSpan_out tagFormat sps (encodeSpan tagFormat l sp) hwf' p hout]
      rw [encodeSpan_getElem?_char tagFormat l sp p (hwf sp (List.mem_cons_self sp sps))]
      rw [if_pos hin]
    · exact ih (encodeSpan tagFormat l a) hwf' (List.pairwise_cons.mp hpw).2 p sp hmem hin

/-- Claim C4: for a sentence of `n` tokens with well-formed, pairwise
non-overlapping gold spans, `_get_gold_labels` assigns every position covered
by a span its claim tag — under BIOES `S-` for a singleton span, else `B-` at
the first, `E-` at the last and `I-` strictly inside; under BIO `B-` at the
first and `I-` on every remaining position — and leaves every uncovered
position `"O"`. -/
theorem get_gold_labels_char (n : ℕ) (spans : List GSpan)
    (hwf : ∀ sp ∈ spans, spanWF n sp)
    (hdisj : spans.Pairwise spansDisjoint) :
    (∀ sp ∈ spans, ∀ p : ℕ, inSpan sp p →
        (get_gold_labels "BIOES" n spans)[p]? = some (bioesTag sp p) ∧
          (get_gold_labels "BIO" n spans)[p]? = some (bioTag sp p)) ∧
      (∀ p : ℕ, p < n → (∀ sp ∈ spans, ¬ inSpan sp p) →
        (get_gold_labels "BIOES" n spans)[p]? = some "O" ∧
          (get_gold_labels "BIO" n spans)[p]? = some "O") := by
  have hwf' : ∀ sp ∈ spans, spanWF (List.replicate n "O").length sp := by
    intro sp hs
    rw [List.length_replicate]
    exact hwf sp hs
  constructor
  · intro sp hsp p hin
    constructor
    · unfold get_gold_labels
      rw [foldl_encodeSpan_in "BIOES" spans (List.replicate n "O") hwf' hdisj p sp hsp hin]
      simp [spanTag]
    · unfold get_gold_labels
      rw [foldl_encodeSpan_in "BIO" spans (List.replicate n "O") hwf' hdisj p sp hsp hin]
      simp [spanTag]
  · intro p hp hout
    constructor
    · unfold get_gold_labels
      rw [foldl_encodeSpan_out "BIOES" spans (List.replicate n "O") hwf' p hout]
      exact List.getElem?_replicate_of_lt hp
    · unfold get_gold_labels
      rw [foldl_encodeSpan_out "BIO" spans (List.replicate n "O") hwf' p hout]
      exact List.getElem?_replicate_of_lt hp

/-- Witness for C4 at the spec's own examples: the span of tokens 2-3 labelled
`"X"` in a 4-token sentence encodes to `O B-X I-X O` under BIO, and under BIOES
its last token gets `E-X`. -/
theorem get_gold_labels_char_witness :
    (get_gold_labels "BIO" 4 [⟨2, 3, "X"⟩])[1]? = some "B-X" ∧
      (get_gold_labels "BIO" 4 [⟨2, 3, "X"⟩])[0]? = some "O" ∧
      (get_gold_labels "BIOES" 4 [⟨2, 3, "X"⟩])[2]? = some "E-X" := by
  have h := get_gold_labels_char 4 [⟨2, 3, "X"⟩] (by decide) (by decide)
  refine ⟨?_, ?_, ?_⟩
  · exact ((h.1 ⟨2, 3, "X"⟩ (by decide) 1 (by decide)).2).trans (by decide)
  · exact (h.2 0 (by decide) (by decide)).2
  · exact ((h.1 ⟨2, 3, "X"⟩ (by decide) 2 (by decide)).1).trans (by decide)

/-- Counterexample to claim C3 as stated: a span-level tag dictionary with
zero base labels besides the unknown sentinel (here exactly `["<unk>"]`)
expands to the empty dictionary — size 0, not the claimed `1 + k*0 = 1`,
because `"O"` is only ever added inside the per-label loop body. -/
theorem expandDict_no_labels_counterexample :
    expandDict "BIOES" ["<unk>"] = [] ∧
      (expandDict "BIOES" ["<unk>"]).length ≠ 1 + 4 * 0 ∧
      expandDict "BIO" ["<unk>"] = [] ∧
      (expandDict "BIO" ["<unk>"]).length ≠ 1 + 2 * 0 := by
  decide

/-- Claim C3 amended: for every span-level tag dictionary with at least one
distinct base label besides the unknown sentinel, the expanded dictionary has
exactly `1 + 4*n` entries under BIOES and `1 + 2*n` under BIO, where `n` counts
the non-`"<unk>"` items; with zero such labels both sizes are 0 instead. -/
theorem expandDict_size_amended (items : List String) (hnd : items.Nodup)
    (hne : ∃ l ∈ items, l ≠ "<unk>") :
    (expandDict "BIOES" items).length
        = 1 + 4 * (items.filter (fun l => l != "<unk>")).length ∧
      (expandDict "BIO" items).length
        = 1 + 2 * (items.filter (fun l => l != "<unk>")).length := by
  have hfilter_ne : items.filter (fun l => l != "<unk>") ≠ [] := by
    obtain ⟨l, hl, hlu⟩ := hne
    exact List.ne_nil_of_mem (List.mem_filter.mpr ⟨hl, by simp [bne_iff_ne, hlu]⟩)
  constructor
  · have h := foldl_expandStep_length "BIOES" (Or.inl rfl) 4
      (fun l => by simp [tagVariants]) items [] hnd
      (by intro l hl hu v hv; simp)
    unfold expandDict
    rw [h, if_neg (by
      push_neg
      exact ⟨by simp, hfilter_ne⟩)]
    simp
  · have h := foldl_expandStep_length "BIO" (Or.inr rfl) 2
      (fun l => by simp [tagVariants]) items [] hnd
      (by intro l hl hu v hv; simp)
    unfold expandDict
    rw [h, if_neg (by
      push_neg
      exact ⟨by simp, hfilter_ne⟩)]
    simp

/-- Witness for the amended C3 at the concrete dictionary
`["person", "location"]`: 9 expanded BIOES tags and 5 expanded BIO tags. -/
theorem expandDict_size_amended_witness :
    (expandDict "BIOES" ["person", "location"]).length = 9 ∧
      (expandDict "BIO" ["person", "location"]).length = 5 := by
  have h := expandDict_size_amended ["person", "location"] (by decide) (by decide)
  exact ⟨h.1.trans (by decide), h.2.trans (by decide)⟩

/-- Claim C2 amended: for every base label containing no hyphen, verbalizing a
`B-` or `I-` expanded tag (prefix to word, suffix via `label.split("-")[1]`)
and then dropping the generated phrase's leading word recovers the original
label, in both formats; the BIOES-only `S-` and `E-` expanded tags receive no
verbalization at all, and hyphenated labels are truncated at their first
hyphen. -/
theorem verbalize_roundtrip_amended (l : String) (h : ('-' : Char) ∉ l.data) :
    (verbalize ("B-" ++ l) = some ("begin " ++ l) ∧ deriveBase ("begin " ++ l) = l) ∧
      (verbalize ("I-" ++ l) = some ("inside " ++ l) ∧ deriveBase ("inside " ++ l) = l) ∧
      verbalize ("S-" ++ l) = none ∧
      verbalize ("E-" ++ l) = none :=
  ⟨⟨verbalize_B l h, deriveBase_begin l⟩,
    ⟨verbalize_I l h, deriveBase_inside l⟩,
    verbalize_S_none l, verbalize_E_none l⟩

/-- Witness for the amended C2 at the concrete hyphen-free base label
`"person"`. -/
theorem verbalize_roundtrip_amended_witness :
    (verbalize ("B-" ++ "person") = some ("begin " ++ "person") ∧
        deriveBase ("begin " ++ "person") = "person") ∧
      (verbalize ("I-" ++ "person") = some ("inside " ++ "person") ∧
        deriveBase ("inside " ++ "person") = "person") ∧
      verbalize ("S-" ++ "person") = none ∧
      verbalize ("E-" ++ "person") = none :=
  verbalize_roundtrip_amended "person" (by decide)

/-- Claim C1: evaluation of the code at the failing input. For the span-level
tag dictionary `["person"]` under BIOES, the expanded dictionary has 5 items
but only 3 of them (`"O"`, `"B-person"`, `"I-person"`) are verbalized — the
verbalizer has no case for `S-`/`E-` — so the logits matrix of `forward` has 3
columns, not tagset-size 5 as the claim states. -/
theorem bioes_logits_columns_mismatch :
    expandDict "BIOES" ["person"] = ["O", "S-person", "B-person", "E-person", "I-person"] ∧
      verbalizedLabels (expandDict "BIOES" ["person"]) = ["other", "begin person", "inside person"] ∧
      (logitsShape [["She"], ["He", "ran"]] (expandDict "BIOES" ["person"])).2 = 3 ∧
      (expandDict "BIOES" ["person"]).length = 5 := by
  decide
